import Mathlib

/-!
# Verification of the xv6-riscv write-ahead log (`kernel/log.c`)

Shallow embedding of the logging layer of the xv6 filesystem.  Disk blocks
carry abstract contents (`Block`).  Following the on-disk layout of the log
(spec section 6: the log region is a contiguous reserved run of blocks,
disjoint from the home blocks of filesystem data), the disk is modelled with
three components: the header block at `logstart`, the data slots
(`logstart + i + 1` = slot `i`), and the home blocks, indexed by block
number.  The buffer cache is write-through (`bwrite` is synchronous), so the
cache copy of a log-region block always equals its disk copy; consequently
the cache is modelled only for home blocks, together with a pin count per
block (`bpin` / `bunpin`).

The in-memory log header `struct logheader { int n; int block[LOGSIZE]; }`
is modelled as the list of the first `n` recorded block numbers (its length
is `n`); entries beyond `n` are never read by any code path.  The on-disk
header block keeps the full fixed-size entry array, because `write_head`
overwrites only the first `n` entries, leaving stale entries visible on
disk.

Panics (`panic(...)`) and blocking (`sleep(...)`) are modelled by `Option`:
`none` means the operation aborts fatally (for `log_write`, `end_op`,
`initlog`) or blocks and re-tests (for `begin_op`); the doc comment of each
definition says which.
-/

namespace XV6Log

/-- Abstract contents of one disk block (`buf.data`, `BSIZE` bytes). -/
abbrev Block := Nat

/-- The on-disk header block: `struct logheader` as it sits in the first
block of the log region.  `n` is the number of valid entries; `block` is
the full fixed-capacity entry array (stale entries past `n` included). -/
@[ext]
structure DiskHeader where
  n : Nat
  block : List Nat
  deriving Repr, DecidableEq

/-- The disk, split by the fixed log-region layout: the header block, the
log data slots (`log i` = contents of disk block `logstart + i + 1`), and
the home blocks (`home b` = contents of disk block `b`). -/
@[ext]
structure Disk where
  header : DiskHeader
  log : Nat → Block
  home : Nat → Block

/-- The whole state the log code touches: the disk, the buffer cache's home
block copies and pin counts, and `struct log`'s mutable fields: the
in-memory header (`lh`, list of recorded block numbers, `lh.n` =
`lh.length`), `outstanding` and `committing`.  The geometry fields
(`start`, `size`, `dev`) are constants after `initlog`; `start` and `dev`
are absorbed into the disk layout, `size` is passed to `log_write`. -/
@[ext]
structure LogState where
  disk : Disk
  cache : Nat → Block
  pins : Nat → Nat
  lh : List Nat
  outstanding : Int
  committing : Bool

/-- Loop body of `write_log`, iterating `tail` over the entries `bs`:
`bread` the log slot, `memmove` the cache contents of the home block into
it, `bwrite` it.  Only the disk's log slots change. -/
def writeLogFrom (cache : Nat → Block) (tail : Nat) (bs : List Nat) (d : Disk) : Disk :=
  match bs with
  | [] => d
  | b :: rest =>
      writeLogFrom cache (tail + 1) rest
        { d with log := Function.update d.log tail (cache b) }

/-- `write_log`: copy modified blocks from the cache to the log slots. -/
def write_log (s : LogState) : LogState :=
  { s with disk := writeLogFrom s.cache 0 s.lh s.disk }

/-- `write_head`: write the in-memory header `lh` to the on-disk header
block.  The loop stores `lh.n` and the first `lh.n` entries; entries of the
on-disk array past `lh.n` keep their previous (stale) contents. -/
def write_head_d (lh : List Nat) (d : Disk) : Disk :=
  { d with header := { n := lh.length, block := lh ++ d.header.block.drop lh.length } }

/-- `read_head`: read the on-disk header into the in-memory header, copying
`n` and the first `n` entries only. -/
def read_head_d (d : Disk) : List Nat :=
  d.header.block.take d.header.n

/-- Loop body of `install_trans`, iterating `tail` over the entries `bs`:
read log slot `tail` (`lbuf`) and the home block (`dbuf`, the cache copy),
`memmove` the slot contents over the home block, `bwrite` it, and `bunpin`
the home block unless `recovering`. -/
def installFrom (recovering : Bool) (tail : Nat) (bs : List Nat)
    (d : Disk) (cache : Nat → Block) (pins : Nat → Nat) :
    Disk × (Nat → Block) × (Nat → Nat) :=
  match bs with
  | [] => (d, cache, pins)
  | b :: rest =>
      installFrom recovering (tail + 1) rest
        { d with home := Function.update d.home b (d.log tail) }
        (Function.update cache b (d.log tail))
        (if recovering then pins else Function.update pins b (pins b - 1))

/-- `install_trans(recovering)`: copy committed blocks from the log slots to
their home locations. -/
def install_trans (recovering : Bool) (s : LogState) : LogState :=
  let r := installFrom recovering 0 s.lh s.disk s.cache s.pins
  { s with disk := r.1, cache := r.2.1, pins := r.2.2 }

/-- `commit`: a no-op if `lh.n == 0`; otherwise the four phases in order:
`write_log()`, `write_head()` (the commit point), `install_trans(0)`,
`lh.n = 0` followed by `write_head()` (erase the transaction). -/
def commit (s : LogState) : LogState :=
  if s.lh.length > 0 then
    let s1 := write_log s
    let s2 := { s1 with disk := write_head_d s1.lh s1.disk }
    let s3 := install_trans false s2
    let s4 := { s3 with lh := [] }
    { s4 with disk := write_head_d s4.lh s4.disk }
  else s

/-- `recover_from_log`: `read_head()`, `install_trans(1)` (no unpinning),
`lh.n = 0`, `write_head()` (clear the log). -/
def recover_from_log (s : LogState) : LogState :=
  let s0 := { s with lh := read_head_d s.disk }
  let s1 := install_trans true s0
  let s2 := { s1 with lh := [] }
  { s2 with disk := write_head_d s2.lh s2.disk }

/-- `begin_op`: one test of the admission loop.  `none` means the caller
blocks (`sleep`) and re-tests after a wakeup; `some` means it was admitted
and `outstanding` was incremented. -/
def begin_op (LOGSIZE MAXOPBLOCKS : Nat) (s : LogState) : Option LogState :=
  if s.committing then none
  else if (s.lh.length : Int) + (s.outstanding + 1) * (MAXOPBLOCKS : Int) > (LOGSIZE : Int) then
    none
  else some { s with outstanding := s.outstanding + 1 }

/-- `end_op`: decrement `outstanding`; panic (`none`) if `committing`; if
`outstanding` reached 0, run `commit` with `committing` set, then clear
`committing` and wake waiters.  The returned `Bool` records whether this
caller ran the commit (`do_commit`). -/
def end_op (s : LogState) : Option (LogState × Bool) :=
  let s1 := { s with outstanding := s.outstanding - 1 }
  if s1.committing then none
  else if s1.outstanding = 0 then
    let s2 := commit { s1 with committing := true }
    some ({ s2 with committing := false }, true)
  else
    some (s1, false)

/-- `log_write(b)`: panic (`none`) if the transaction is full
(`lh.n >= LOGSIZE || lh.n >= log.size - 1`) or no operation is admitted
(`outstanding < 1`).  Otherwise scan the header for `b`'s block number
(absorption); on a hit nothing changes; on a miss `bpin(b)` and append the
block number at position `lh.n`, incrementing `lh.n`. -/
def log_write (LOGSIZE size : Nat) (s : LogState) (blockno : Nat) : Option LogState :=
  if s.lh.length ≥ LOGSIZE ∨ s.lh.length ≥ size - 1 then none
  else if s.outstanding < 1 then none
  else if blockno ∈ s.lh then some s
  else some { s with
                lh := s.lh ++ [blockno],
                pins := Function.update s.pins blockno (s.pins blockno + 1) }

/-- `log_write` iterated `n` times on the same block number. -/
def logWriteN (LOGSIZE size : Nat) (s : LogState) (blockno : Nat) : Nat → Option LogState
  | 0 => some s
  | n + 1 => (logWriteN LOGSIZE size s blockno n).bind fun s1 =>
      log_write LOGSIZE size s1 blockno

/-- `sizeof(struct logheader)` in bytes on the RV64 target: `int n` plus
`int block[LOGSIZE]`, four bytes per `int`, no padding. -/
def logheaderBytes (LOGSIZE : Nat) : Nat := 4 + 4 * LOGSIZE

/-- `initlog`: panic (`none`) if `sizeof(struct logheader) >= BSIZE`;
otherwise set up the geometry and zeroed counters and run
`recover_from_log`. -/
def initlog (LOGSIZE BSIZE : Nat) (d : Disk) (cache : Nat → Block) (pins : Nat → Nat) :
    Option LogState :=
  if logheaderBytes LOGSIZE ≥ BSIZE then none
  else some (recover_from_log
    { disk := d, cache := cache, pins := pins, lh := [], outstanding := 0, committing := false })

/-- The disk after the crash-and-reboot run of recovery: the in-memory
state (cache, pins, header) is lost in the crash, so recovery starts from a
fresh one; the disk outcome does not depend on it
(`installFrom` only reads the disk to compute its disk component). -/
def recoverDisk (d : Disk) : Disk :=
  (recover_from_log
    { disk := d, cache := fun _ => 0, pins := fun _ => 0,
      lh := [], outstanding := 0, committing := false }).disk

/-- The disk after the first `k` synchronous disk writes of a `commit` with
in-memory header `lh` (nonempty) and cache `cache`, starting from disk `d`:
writes `0..n-1` are `write_log`'s slot writes, write `n` is `write_head`
(the commit point), writes `n+1..2n` are `install_trans`'s home-block
writes, and write `2n+1` is the erasing `write_head`.  `k = 2n+2` is the
completed commit. -/
def commitCrashDisk (cache : Nat → Block) (lh : List Nat) (d : Disk) (k : Nat) : Disk :=
  let n := lh.length
  if k ≤ n then
    writeLogFrom cache 0 (lh.take k) d
  else
    let d2 := write_head_d lh (writeLogFrom cache 0 lh d)
    if k ≤ 2 * n + 1 then
      (installFrom true 0 (lh.take (k - (n + 1))) d2 (fun _ => 0) (fun _ => 0)).1
    else
      write_head_d [] (installFrom true 0 lh d2 (fun _ => 0) (fun _ => 0)).1

/-- One step of the logging interface, as invoked by the rest of the
filesystem: an admission test that succeeded, a `log_write` that did not
panic, an `end_op` that did not panic (running `commit` when it was the
last outstanding operation), or mount-time recovery. -/
inductive Step (LOGSIZE MAXOPBLOCKS size : Nat) : LogState → LogState → Prop where
  | enter (s s' : LogState) (h : begin_op LOGSIZE MAXOPBLOCKS s = some s') :
      Step LOGSIZE MAXOPBLOCKS size s s'
  | record (s s' : LogState) (b : Nat) (h : log_write LOGSIZE size s b = some s') :
      Step LOGSIZE MAXOPBLOCKS size s s'
  | exits (s s' : LogState) (r : Bool) (h : end_op s = some (s', r)) :
      Step LOGSIZE MAXOPBLOCKS size s s'
  | recover (s : LogState) :
      Step LOGSIZE MAXOPBLOCKS size s (recover_from_log s)

/-- States reachable from `s` by the logging interface. -/
def Reachable (LOGSIZE MAXOPBLOCKS size : Nat) : LogState → LogState → Prop :=
  Relation.ReflTransGen (Step LOGSIZE MAXOPBLOCKS size)

/-- The header capacity invariant: `lh.n` at most `LOGSIZE` and at most
`log.size - 1` (one block of the log region is the header itself). -/
def CountInv (LOGSIZE size : Nat) (s : LogState) : Prop :=
  s.lh.length ≤ LOGSIZE ∧ s.lh.length ≤ size - 1

/-! ## Frame lemmas for the loop bodies -/

theorem writeLogFrom_header (c : Nat → Block) (bs : List Nat) :
    ∀ (t : Nat) (d : Disk), (writeLogFrom c t bs d).header = d.header := by
  induction bs with
  | nil => intro t d; rfl
  | cons b rest ih =>
      intro t d
      simp only [writeLogFrom]
      exact ih (t + 1) _

theorem writeLogFrom_home (c : Nat → Block) (bs : List Nat) :
    ∀ (t : Nat) (d : Disk), (writeLogFrom c t bs d).home = d.home := by
  induction bs with
  | nil => intro t d; rfl
  | cons b rest ih =>
      intro t d
      simp only [writeLogFrom]
      exact ih (t + 1) _

theorem writeLogFrom_log_lt (c : Nat → Block) (bs : List Nat) :
    ∀ (t : Nat) (d : Disk) (j : Nat), j < t → (writeLogFrom c t bs d).log j = d.log j := by
  induction bs with
  | nil => intro t d j _; rfl
  | cons b rest ih =>
      intro t d j hj
      simp only [writeLogFrom]
      rw [ih (t + 1) _ j (by omega)]
      exact Function.update_noteq (by omega) _ _

/-- After the `write_log` loop starting at slot `t`, slot `t + j` holds the
cache contents of the `j`-th recorded block. -/
theorem writeLogFrom_log_get (c : Nat → Block) (bs : List Nat) :
    ∀ (t : Nat) (d : Disk) (j : Nat) (hj : j < bs.length),
      (writeLogFrom c t bs d).log (t + j) = c (bs.get ⟨j, hj⟩) := by
  induction bs with
  | nil => intro t d j hj; exact absurd hj (by simp)
  | cons b rest ih =>
      intro t d j hj
      match j with
      | 0 =>
          simp only [writeLogFrom]
          rw [writeLogFrom_log_lt c rest (t + 1) _ (t + 0) (by omega)]
          simp [Function.update_same]
      | j + 1 =>
          simp only [writeLogFrom]
          have ht : t + (j + 1) = (t + 1) + j := by omega
          rw [ht, ih (t + 1) _ j (by simp only [List.length_cons] at hj; omega)]
          simp

theorem installFrom_log (r : Bool) (bs : List Nat) :
    ∀ t d c p, (installFrom r t bs d c p).1.log = d.log := by
  induction bs with
  | nil => intro t d c p; rfl
  | cons b rest ih =>
      intro t d c p
      simp only [installFrom]
      exact ih (t + 1) _ _ _

theorem installFrom_header (r : Bool) (bs : List Nat) :
    ∀ t d c p, (installFrom r t bs d c p).1.header = d.header := by
  induction bs with
  | nil => intro t d c p; rfl
  | cons b rest ih =>
      intro t d c p
      simp only [installFrom]
      exact ih (t + 1) _ _ _

/-- The disk outcome of the install loop does not depend on the
`recovering` flag nor on the volatile cache and pin state. -/
theorem installFrom_disk_congr (r r' : Bool) (bs : List Nat) :
    ∀ t d (c c' : Nat → Block) (p p' : Nat → Nat),
      (installFrom r t bs d c p).1 = (installFrom r' t bs d c' p').1 := by
  induction bs with
  | nil => intro t d c c' p p'; rfl
  | cons b rest ih =>
      intro t d c c' p p'
      simp only [installFrom]
      exact ih (t + 1) _ _ _ _ _

theorem installFrom_home_of_not_mem (r : Bool) (bs : List Nat) :
    ∀ t d c p (b : Nat), b ∉ bs → (installFrom r t bs d c p).1.home b = d.home b := by
  induction bs with
  | nil => intro t d c p b _; rfl
  | cons a rest ih =>
      intro t d c p b hb
      have h1 : b ≠ a ∧ b ∉ rest := by simpa [not_or] using hb
      simp only [installFrom]
      rw [ih (t + 1) _ _ _ b h1.2]
      exact Function.update_noteq h1.1 _ _

/-- If slot `t + j` holds `f` of the `j`-th entry for every `j`, then after
the install loop every listed home block `b` holds `f b` (the last write to
a repeated block wins, and all its writes carry the same value). -/
theorem installFrom_home_of_mem (r : Bool) (f : Nat → Block) (bs : List Nat) :
    ∀ t d c p,
      (∀ j (hj : j < bs.length), d.log (t + j) = f (bs.get ⟨j, hj⟩)) →
      ∀ b ∈ bs, (installFrom r t bs d c p).1.home b = f b := by
  induction bs with
  | nil => intro t d c p _ b hb; exact absurd hb (by simp)
  | cons a rest ih =>
      intro t d c p hlog b hb
      have h0 : d.log t = f a := by simpa using hlog 0 (by simp)
      simp only [installFrom]
      have hlog' : ∀ j (hj : j < rest.length),
          ({ d with home := Function.update d.home a (d.log t) } : Disk).log ((t + 1) + j)
            = f (rest.get ⟨j, hj⟩) := by
        intro j hj
        have ht : (t + 1) + j = t + (j + 1) := by omega
        rw [ht]
        simpa using hlog (j + 1) (by simp only [List.length_cons]; omega)
      by_cases hbr : b ∈ rest
      · exact ih (t + 1) _ _ _ hlog' b hbr
      · have hba : b = a := by
          rcases List.mem_cons.mp hb with h | h
          · exact h
          · exact absurd h hbr
        rw [installFrom_home_of_not_mem r rest (t + 1) _ _ _ b hbr]
        subst hba
        show Function.update d.home b (d.log t) b = f b
        rw [Function.update_same, h0]

/-- Positional form: with distinct entries, the `j`-th listed home block
receives the contents of slot `t + j`. -/
theorem installFrom_home_get (r : Bool) (bs : List Nat) :
    ∀ t d c p, bs.Nodup → ∀ (j : Nat) (hj : j < bs.length),
      (installFrom r t bs d c p).1.home (bs.get ⟨j, hj⟩) = d.log (t + j) := by
  induction bs with
  | nil => intro t d c p _ j hj; exact absurd hj (by simp)
  | cons a rest ih =>
      intro t d c p hnd j hj
      obtain ⟨ha, hrest⟩ := List.nodup_cons.mp hnd
      simp only [installFrom]
      match j with
      | 0 =>
          show (installFrom r (t + 1) rest _ _ _).1.home a = d.log (t + 0)
          rw [installFrom_home_of_not_mem r rest (t + 1) _ _ _ a ha]
          simp [Function.update_same]
      | j + 1 =>
          have ht : t + (j + 1) = (t + 1) + j := by omega
          show (installFrom r (t + 1) rest _ _ _).1.home (rest.get ⟨j, _⟩) = d.log (t + (j + 1))
          rw [ht, ih (t + 1) _ _ _ hrest j (by simp only [List.length_cons] at hj; omega)]

/-- When every slot already holds the cache contents of its entry (as after
`write_log` in a quiescent `commit`), the install loop leaves the cache
unchanged. -/
theorem installFrom_cache_fix (r : Bool) (bs : List Nat) :
    ∀ t d (c : Nat → Block) p,
      (∀ j (hj : j < bs.length), d.log (t + j) = c (bs.get ⟨j, hj⟩)) →
      (installFrom r t bs d c p).2.1 = c := by
  induction bs with
  | nil => intro t d c p _; rfl
  | cons a rest ih =>
      intro t d c p hlog
      have h0 : d.log t = c a := by simpa using hlog 0 (by simp)
      simp only [installFrom, h0, Function.update_eq_self]
      apply ih (t + 1)
      intro j hj
      have ht : (t + 1) + j = t + (j + 1) := by omega
      rw [ht]
      simpa using hlog (j + 1) (by simp only [List.length_cons]; omega)

theorem installFrom_pins_recovering (bs : List Nat) :
    ∀ t d c p, (installFrom true t bs d c p).2.2 = p := by
  induction bs with
  | nil => intro t d c p; rfl
  | cons a rest ih =>
      intro t d c p
      simp only [installFrom, if_pos]
      exact ih (t + 1) _ _ _

theorem installFrom_pins_of_not_mem (r : Bool) (bs : List Nat) :
    ∀ t d c p (b : Nat), b ∉ bs → (installFrom r t bs d c p).2.2 b = p b := by
  induction bs with
  | nil => intro t d c p b _; rfl
  | cons a rest ih =>
      intro t d c p b hb
      have h1 : b ≠ a ∧ b ∉ rest := by simpa [not_or] using hb
      simp only [installFrom]
      rw [ih (t + 1) _ _ _ b h1.2]
      cases r <;> simp [Function.update_noteq h1.1]

/-- A non-recovering install (`install_trans(0)` in `commit`) unpins each
distinct listed block exactly once. -/
theorem installFrom_pins_nodup (bs : List Nat) :
    ∀ t d c (p : Nat → Nat), bs.Nodup → ∀ b ∈ bs,
      (installFrom false t bs d c p).2.2 b = p b - 1 := by
  induction bs with
  | nil => intro t d c p _ b hb; exact absurd hb (by simp)
  | cons a rest ih =>
      intro t d c p hnd b hb
      obtain ⟨ha, hrest⟩ := List.nodup_cons.mp hnd
      simp only [installFrom, Bool.false_eq_true, if_neg, ite_false]
      rcases List.mem_cons.mp hb with rfl | hbr
      · rw [installFrom_pins_of_not_mem false rest (t + 1) _ _ _ b ha]
        simp [Function.update_same]
      · rw [ih (t + 1) _ _ _ hrest b hbr,
          Function.update_noteq (by rintro rfl; exact ha hbr) _ _]

/-! ## Helpers for the header block and recovery -/

theorem write_head_d_nil (d : Disk) :
    write_head_d [] d = { d with header := { n := 0, block := d.header.block } } := rfl

theorem write_head_d_home (lh : List Nat) (d : Disk) : (write_head_d lh d).home = d.home := rfl

theorem write_head_d_log (lh : List Nat) (d : Disk) : (write_head_d lh d).log = d.log := rfl

/-- Reading the header back after writing it returns the in-memory header:
the stale on-disk entries past position `n` are invisible. -/
theorem read_head_write_head (lh : List Nat) (d : Disk) :
    read_head_d (write_head_d lh d) = lh := by
  simp only [read_head_d, write_head_d]
  exact List.take_left lh _

/-- The disk outcome of recovery depends only on the starting disk. -/
theorem recover_from_log_disk (s : LogState) :
    (recover_from_log s).disk = recoverDisk s.disk := by
  simp only [recover_from_log, recoverDisk, install_trans]
  congr 1
  exact installFrom_disk_congr true true _ 0 _ _ _ _ _

/-- Unfolding of `commit` on a nonempty transaction: phase 1 writes the log
slots, phase 2 writes the header, phase 3 installs and unpins, phase 4
erases the header; `lh.n` ends at 0. -/
theorem commit_eq (s : LogState) (h : s.lh ≠ []) :
    commit s =
      (let d2 := write_head_d s.lh (writeLogFrom s.cache 0 s.lh s.disk)
       let r := installFrom false 0 s.lh d2 s.cache s.pins
       { disk := write_head_d [] r.1, cache := r.2.1, pins := r.2.2,
         lh := [], outstanding := s.outstanding, committing := s.committing }) := by
  unfold commit
  rw [if_pos (List.length_pos.mpr h)]
  rfl

/-- Unfolding of `recover_from_log`: read the header, install, clear. -/
theorem recover_eq (s : LogState) :
    recover_from_log s =
      (let r := installFrom true 0 (read_head_d s.disk) s.disk s.cache s.pins
       { disk := write_head_d [] r.1, cache := r.2.1, pins := r.2.2,
         lh := [], outstanding := s.outstanding, committing := s.committing }) := rfl

/-- Recovery on a state whose transaction is empty both in memory and on
disk changes nothing at all. -/
theorem recover_from_log_fixed (s : LogState) (hlh : s.lh = [])
    (hn : s.disk.header.n = 0) : recover_from_log s = s := by
  rw [recover_eq]
  simp only [read_head_d, hn, List.take_zero, installFrom]
  refine LogState.ext ?_ rfl rfl hlh.symm rfl rfl
  refine Disk.ext ?_ rfl rfl
  exact DiskHeader.ext hn.symm rfl

theorem commit_outstanding (s : LogState) : (commit s).outstanding = s.outstanding := by
  unfold commit
  split <;> rfl

theorem commit_committing (s : LogState) : (commit s).committing = s.committing := by
  unfold commit
  split <;> rfl

theorem commit_lh (s : LogState) : (commit s).lh = [] ∨ (commit s).lh = s.lh := by
  unfold commit
  split
  · exact Or.inl rfl
  · exact Or.inr rfl

/-! ## Claim theorems -/

/-- C5: `begin_op` admits the caller, incrementing `outstanding`, exactly
when no commit is in progress and the worst-case reservation
`lh.n + (outstanding + 1) * MAXOPBLOCKS ≤ LOGSIZE` holds; in every other
state it blocks and re-tests (`none`) instead of being admitted. -/
theorem begin_op_admission (LOGSIZE MAXOPBLOCKS : Nat) (s : LogState) :
    (begin_op LOGSIZE MAXOPBLOCKS s
        = some { s with outstanding := s.outstanding + 1 }
      ↔ s.committing = false ∧
        (s.lh.length : Int) + (s.outstanding + 1) * (MAXOPBLOCKS : Int) ≤ (LOGSIZE : Int)) ∧
    (begin_op LOGSIZE MAXOPBLOCKS s = none
      ↔ s.committing = true ∨
        (s.lh.length : Int) + (s.outstanding + 1) * (MAXOPBLOCKS : Int) > (LOGSIZE : Int)) := by
  unfold begin_op
  split_ifs with h1 h2 <;> simp_all

/-- C6: `end_op` decrements `outstanding`; it panics (`none`) exactly when
`committing` is already true; the commit engine runs if and only if
`outstanding` reached 0, in which case it runs with `committing` set and
`committing` is cleared afterwards; otherwise the state only has
`outstanding` decremented (and waiters are woken). -/
theorem end_op_protocol (s : LogState) :
    (end_op s = none ↔ s.committing = true) ∧
    (∀ s' ran, end_op s = some (s', ran) →
      s'.outstanding = s.outstanding - 1 ∧
      s'.committing = s.committing ∧
      (ran = true ↔ s.outstanding - 1 = 0) ∧
      (ran = true →
        s' = { commit { s with outstanding := s.outstanding - 1, committing := true }
                with committing := false }) ∧
      (ran = false → s' = { s with outstanding := s.outstanding - 1 })) ∧
    (s.committing = false → ∃ s' ran, end_op s = some (s', ran)) := by
  unfold end_op
  by_cases h1 : s.committing
  · simp [h1]
  · by_cases h2 : s.outstanding - 1 = 0
    · simp only [h1, h2, if_false, if_true, Bool.false_eq_true, ite_false, ite_true]
      refine ⟨by simp [h1], ?_, fun _ => ⟨_, _, rfl⟩⟩
      rintro s' ran h
      injection h with h
      injection h with hs hran
      subst hs hran
      refine ⟨?_, by simp [commit_committing, h1], by simp [h2], fun _ => rfl, by simp⟩
      simp [commit_outstanding]
    · simp only [h1, h2, if_false, Bool.false_eq_true, ite_false]
      refine ⟨by simp [h1], ?_, fun _ => ⟨_, _, rfl⟩⟩
      rintro s' ran h
      injection h with h
      injection h with hs hran
      subst hs hran
      exact ⟨rfl, rfl, by simp [h2], by simp, fun _ => rfl⟩

/-- C7: `log_write` panics (`none`) exactly when the transaction is full
(`lh.n ≥ LOGSIZE` or `lh.n ≥ log.size − 1`) or no operation is admitted
(`outstanding < 1`); when none of the three conditions holds it succeeds
and the block number is recorded in the header. -/
theorem log_write_guard (LOGSIZE size : Nat) (s : LogState) (b : Nat) :
    (log_write LOGSIZE size s b = none
      ↔ s.lh.length ≥ LOGSIZE ∨ s.lh.length ≥ size - 1 ∨ s.outstanding < 1) ∧
    (s.lh.length < LOGSIZE → s.lh.length < size - 1 → 1 ≤ s.outstanding →
      ∃ s1, log_write LOGSIZE size s b = some s1 ∧ b ∈ s1.lh) := by
  constructor
  · unfold log_write
    split_ifs with h1 h2 h3 <;> (simp_all; try omega)
  · intro hc1 hc2 hout
    unfold log_write
    rw [if_neg (by omega), if_neg (by omega)]
    by_cases hb : b ∈ s.lh
    · exact ⟨s, by rw [if_pos hb], hb⟩
    · exact ⟨_, by rw [if_neg hb], by simp⟩

/-- C9 counterexample: with `LOGSIZE = 1` and `BSIZE = 8` the header record
occupies `logheaderBytes 1 = 8` bytes, so it fits within one block of
`BSIZE = 8` bytes, yet `initlog` aborts (`none`): the code panics on
`sizeof(struct logheader) >= BSIZE`, so it also halts in the boundary case
where the record exactly fills — and hence fits within — one block. -/
theorem initlog_fit_counterexample :
    logheaderBytes 1 ≤ 8 ∧
    initlog 1 8 ⟨⟨0, []⟩, fun _ => 0, fun _ => 0⟩ (fun _ => 0) (fun _ => 0) = none :=
  ⟨by decide, rfl⟩

/-- C9 (amended): `initlog` aborts fatally exactly when
`sizeof(struct logheader) ≥ BSIZE`, i.e. initialization succeeds if and
only if the header record occupies strictly fewer bytes than one disk
block, and it then runs recovery on zeroed counters. -/
theorem initlog_fit_amended (LOGSIZE BSIZE : Nat) (d : Disk)
    (cache : Nat → Block) (pins : Nat → Nat) :
    (initlog LOGSIZE BSIZE d cache pins = none ↔ BSIZE ≤ logheaderBytes LOGSIZE) ∧
    (logheaderBytes LOGSIZE < BSIZE →
      initlog LOGSIZE BSIZE d cache pins = some (recover_from_log
        { disk := d, cache := cache, pins := pins, lh := [],
          outstanding := 0, committing := false })) := by
  unfold initlog
  split_ifs with h
  · exact ⟨by simpa using h, fun hlt => absurd h (by omega)⟩
  · exact ⟨by simpa using h, fun _ => rfl⟩

/-- C8: recovery is idempotent and pin-free: it never unpins (the pin map
is returned unchanged), installs each of the `count` logged entries to its
home block (leaving every other home block alone), writes a cleared header
(`count = 0`), and running it twice in a row — the second run reading the
already-cleared header — leaves the state exactly as running it once. -/
theorem recovery_idempotent (s : LogState) :
    (recover_from_log s).pins = s.pins ∧
    (recover_from_log s).disk.header.n = 0 ∧
    ((read_head_d s.disk).Nodup → ∀ (j : Nat) (hj : j < (read_head_d s.disk).length),
      (recover_from_log s).disk.home ((read_head_d s.disk).get ⟨j, hj⟩) = s.disk.log j) ∧
    (∀ b, b ∉ read_head_d s.disk → (recover_from_log s).disk.home b = s.disk.home b) ∧
    recover_from_log (recover_from_log s) = recover_from_log s := by
  have hpins : (recover_from_log s).pins
      = (installFrom true 0 (read_head_d s.disk) s.disk s.cache s.pins).2.2 := rfl
  have hhome : (recover_from_log s).disk.home
      = (installFrom true 0 (read_head_d s.disk) s.disk s.cache s.pins).1.home := rfl
  refine ⟨?_, rfl, ?_, ?_, ?_⟩
  · rw [hpins, installFrom_pins_recovering]
  · intro hnd j hj
    rw [hhome]
    have := installFrom_home_get true (read_head_d s.disk) 0 s.disk s.cache s.pins hnd j hj
    simpa using this
  · intro b hb
    rw [hhome]
    exact installFrom_home_of_not_mem true _ 0 _ _ _ b hb
  · exact recover_from_log_fixed _ rfl rfl

/-- C10: erasing the header (phase 4 of `commit` and the end of recovery)
rewrites only the `count` field of the on-disk header block to `0`: the
block-number entries of the just-installed transaction remain on disk.
This is invisible at the interface because `read_head` copies only the
first `count` entries, so a subsequent recovery of an on-disk header with
`count = 0` reads an empty header and replays nothing. -/
theorem erase_header_frame (d : Disk) (s : LogState) :
    (write_head_d [] d).header.n = 0 ∧
    (write_head_d [] d).header.block = d.header.block ∧
    read_head_d (write_head_d [] d) = [] ∧
    (∀ b, (recoverDisk (write_head_d [] d)).home b = d.home b) ∧
    (s.lh ≠ [] →
      (commit s).disk.header.n = 0 ∧
      (commit s).disk.header.block = s.lh ++ s.disk.header.block.drop s.lh.length) ∧
    (recover_from_log s).disk.header.n = 0 ∧
    (recover_from_log s).disk.header.block = s.disk.header.block := by
  refine ⟨rfl, rfl, rfl, ?_, ?_, rfl, ?_⟩
  · intro b
    show (installFrom true 0 (read_head_d (write_head_d [] d)) (write_head_d [] d)
        (fun _ => 0) (fun _ => 0)).1.home b = d.home b
    exact installFrom_home_of_not_mem true _ 0 _ _ _ b (by simp [read_head_d, write_head_d])
  · intro hne
    rw [commit_eq s hne]
    refine ⟨rfl, ?_⟩
    show [] ++ ((installFrom false 0 s.lh _ s.cache s.pins).1.header.block).drop 0
        = s.lh ++ s.disk.header.block.drop s.lh.length
    rw [installFrom_header]
    simp only [List.nil_append, List.drop_zero, write_head_d]
    rw [writeLogFrom_header]
  · show [] ++ ((installFrom true 0 (read_head_d s.disk) s.disk s.cache s.pins).1.header.block).drop 0
        = s.disk.header.block
    rw [installFrom_header]
    simp

/-- C3: absorption: calling `log_write` `N ≥ 1` times for the same home
block number within one open transaction consumes exactly one header entry
and one log-region slot.  The first (miss) call pins the block and appends
it at position `lh.n`, incrementing `lh.n`; every further (hit) call
returns with the header, the count and the pins unchanged; and the log slot
consumed (slot `lh.n` of the pre-write state) is written at commit with the
cache contents of the block at commit time, whatever they are by then. -/
theorem log_write_absorption (LOGSIZE size : Nat) (s : LogState) (b : Nat)
    (hmiss : b ∉ s.lh)
    (hcap1 : s.lh.length + 1 < LOGSIZE) (hcap2 : s.lh.length + 1 < size - 1)
    (hout : 1 ≤ s.outstanding) (N : Nat) (hN : 1 ≤ N) :
    logWriteN LOGSIZE size s b N
      = some { s with lh := s.lh ++ [b],
                      pins := Function.update s.pins b (s.pins b + 1) } ∧
    (s.lh ++ [b]).length = s.lh.length + 1 ∧
    Function.update s.pins b (s.pins b + 1) b = s.pins b + 1 ∧
    (∀ b', b' ≠ b → Function.update s.pins b (s.pins b + 1) b' = s.pins b') ∧
    (∀ c' : Nat → Block,
      (commit { s with lh := s.lh ++ [b],
                       pins := Function.update s.pins b (s.pins b + 1),
                       cache := c' }).disk.log s.lh.length = c' b) := by
  have hstep1 : log_write LOGSIZE size s b
      = some { s with lh := s.lh ++ [b],
                      pins := Function.update s.pins b (s.pins b + 1) } := by
    unfold log_write
    rw [if_neg (by omega), if_neg (by omega), if_neg hmiss]
  have hstep2 : log_write LOGSIZE size
      { s with lh := s.lh ++ [b], pins := Function.update s.pins b (s.pins b + 1) } b
      = some { s with lh := s.lh ++ [b],
                      pins := Function.update s.pins b (s.pins b + 1) } := by
    unfold log_write
    rw [if_neg (by simp only [List.length_append, List.length_cons, List.length_nil]; omega),
      if_neg (by simp only []; omega), if_pos (by simp)]
  have hiter : ∀ M, 1 ≤ M → logWriteN LOGSIZE size s b M
      = some { s with lh := s.lh ++ [b],
                      pins := Function.update s.pins b (s.pins b + 1) } := by
    intro M hM
    induction M with
    | zero => exact absurd hM (by omega)
    | succ m ih =>
        cases m with
        | zero => simpa [logWriteN] using hstep1
        | succ k =>
            have h := ih (by omega)
            simp only [logWriteN] at h ⊢
            rw [h]
            simpa using hstep2
  refine ⟨hiter N hN, by simp, Function.update_same b _ s.pins, ?_, ?_⟩
  · intro b' hb'
    exact Function.update_noteq hb' _ _
  · intro c'
    have hne : (({ s with lh := s.lh ++ [b],
                          pins := Function.update s.pins b (s.pins b + 1),
                          cache := c' } : LogState)).lh ≠ [] := by
      simp
    rw [commit_eq _ hne]
    show ((installFrom false 0 (s.lh ++ [b])
        (write_head_d (s.lh ++ [b]) (writeLogFrom c' 0 (s.lh ++ [b]) s.disk))
        c' (Function.update s.pins b (s.pins b + 1))).1).log s.lh.length = c' b
    rw [installFrom_log, write_head_d_log]
    have hj : s.lh.length < (s.lh ++ [b]).length := by simp
    have hval := writeLogFrom_log_get c' (s.lh ++ [b]) 0 s.disk s.lh.length hj
    have hget : (s.lh ++ [b]).get ⟨s.lh.length, hj⟩ = b := by simp
    rw [hget] at hval
    simpa using hval

/-- C2: the commit engine is a no-op when `lh.n = 0`; otherwise the four
strictly ordered phases produce exactly: every log slot `j < n` holding the
cache contents of header entry `j` (write-log), the on-disk header holding
the entry list (write-header, then erased to count 0 by phase 4, the
entries surviving), every listed home block holding its cache contents and
every other home block untouched with each distinct listed block unpinned
once (install), and the in-memory count reset to 0; the resulting disk is
the one reached after all `2n + 2` synchronous writes of the crash
schedule, in that order. -/
theorem commit_phases (s : LogState) :
    (s.lh = [] → commit s = s) ∧
    (s.lh ≠ [] →
      (commit s).lh = [] ∧
      (commit s).cache = s.cache ∧
      (commit s).outstanding = s.outstanding ∧
      (commit s).committing = s.committing ∧
      (∀ (j : Nat) (hj : j < s.lh.length),
        (commit s).disk.log j = s.cache (s.lh.get ⟨j, hj⟩)) ∧
      (commit s).disk.header
        = ⟨0, s.lh ++ s.disk.header.block.drop s.lh.length⟩ ∧
      (∀ b ∈ s.lh, (commit s).disk.home b = s.cache b) ∧
      (∀ b, b ∉ s.lh → (commit s).disk.home b = s.disk.home b) ∧
      (∀ b, b ∉ s.lh → (commit s).pins b = s.pins b) ∧
      (s.lh.Nodup → ∀ b ∈ s.lh, (commit s).pins b = s.pins b - 1) ∧
      (commit s).disk = commitCrashDisk s.cache s.lh s.disk (2 * s.lh.length + 2)) := by
  constructor
  · intro h
    unfold commit
    rw [if_neg (by simp [h])]
  · intro hne
    have hlog2 : ∀ (j : Nat) (hj : j < s.lh.length),
        (write_head_d s.lh (writeLogFrom s.cache 0 s.lh s.disk)).log (0 + j)
          = s.cache (s.lh.get ⟨j, hj⟩) := by
      intro j hj
      rw [write_head_d_log]
      exact writeLogFrom_log_get s.cache s.lh 0 s.disk j hj
    rw [commit_eq s hne]
    refine ⟨rfl, ?_, rfl, rfl, ?_, ?_, ?_, ?_, ?_, ?_, ?_⟩
    · exact installFrom_cache_fix false s.lh 0 _ s.cache s.pins hlog2
    · intro j hj
      show ((installFrom false 0 s.lh _ s.cache s.pins).1).log j = _
      rw [installFrom_log]
      have := hlog2 j hj
      simpa using this
    · refine DiskHeader.ext rfl ?_
      show [] ++ ((installFrom false 0 s.lh _ s.cache s.pins).1.header.block).drop 0
          = s.lh ++ s.disk.header.block.drop s.lh.length
      rw [installFrom_header]
      simp only [List.nil_append, List.drop_zero, write_head_d]
      rw [writeLogFrom_header]
    · intro b hb
      show ((installFrom false 0 s.lh _ s.cache s.pins).1).home b = s.cache b
      exact installFrom_home_of_mem false s.cache s.lh 0 _ s.cache s.pins hlog2 b hb
    · intro b hb
      show ((installFrom false 0 s.lh _ s.cache s.pins).1).home b = s.disk.home b
      rw [installFrom_home_of_not_mem false s.lh 0 _ s.cache s.pins b hb,
        write_head_d_home, writeLogFrom_home]
    · intro b hb
      exact installFrom_pins_of_not_mem false s.lh 0 _ s.cache s.pins b hb
    · intro hnd b hb
      exact installFrom_pins_nodup s.lh 0 _ s.cache s.pins hnd b hb
    · show write_head_d [] ((installFrom false 0 s.lh _ s.cache s.pins).1)
          = commitCrashDisk s.cache s.lh s.disk (2 * s.lh.length + 2)
      simp only [commitCrashDisk]
      rw [if_neg (by omega), if_neg (by omega)]
      exact congrArg (write_head_d [])
        (installFrom_disk_congr false true s.lh 0 _ s.cache (fun _ => 0) s.pins (fun _ => 0))

theorem step_preserves_CountInv (LOGSIZE MAXOPBLOCKS size : Nat) (s s' : LogState)
    (hs : Step LOGSIZE MAXOPBLOCKS size s s') (h : CountInv LOGSIZE size s) :
    CountInv LOGSIZE size s' := by
  cases hs with
  | enter _ hb =>
      unfold begin_op at hb
      split_ifs at hb
      injection hb with hb
      subst hb
      exact h
  | record _ b hb =>
      unfold log_write at hb
      split_ifs at hb with h1 h2 h3
      · injection hb with hb
        subst hb
        exact h
      · injection hb with hb
        subst hb
        refine ⟨?_, ?_⟩ <;> simp only [List.length_append, List.length_cons, List.length_nil] <;>
          omega
  | exits _ r hb =>
      simp only [end_op] at hb
      split_ifs at hb with h1 h2
      · injection hb with hb
        injection hb with hb1 hb2
        subst hb1
        show (commit { s with outstanding := s.outstanding - 1,
                              committing := true }).lh.length ≤ LOGSIZE ∧
          (commit { s with outstanding := s.outstanding - 1,
                           committing := true }).lh.length ≤ size - 1
        rcases commit_lh { s with outstanding := s.outstanding - 1, committing := true }
          with hc | hc <;> rw [hc]
        · exact ⟨Nat.zero_le _, Nat.zero_le _⟩
        · exact h
      · injection hb with hb
        injection hb with hb1 hb2
        subst hb1
        exact h
  | recover =>
      show (recover_from_log s).lh.length ≤ LOGSIZE ∧ (recover_from_log s).lh.length ≤ size - 1
      rw [show (recover_from_log s).lh = [] from rfl]
      exact ⟨Nat.zero_le _, Nat.zero_le _⟩

/-- C4: in every state reachable from a successful `initlog` by admission,
log-write, exit/commit and recovery steps, none of which takes a fatal
path, `0 ≤ lh.n ≤ LOGSIZE` and `lh.n ≤ log.size − 1` hold. -/
theorem capacity_invariant (LOGSIZE MAXOPBLOCKS size BSIZE : Nat)
    (d : Disk) (cache : Nat → Block) (pins : Nat → Nat) (s0 s : LogState)
    (hinit : initlog LOGSIZE BSIZE d cache pins = some s0)
    (hreach : Reachable LOGSIZE MAXOPBLOCKS size s0 s) :
    0 ≤ s.lh.length ∧ s.lh.length ≤ LOGSIZE ∧ s.lh.length ≤ size - 1 := by
  have h0 : CountInv LOGSIZE size s0 := by
    unfold initlog at hinit
    split_ifs at hinit
    injection hinit with hinit
    subst hinit
    show (recover_from_log _).lh.length ≤ LOGSIZE ∧ (recover_from_log _).lh.length ≤ size - 1
    rw [show ∀ t, (recover_from_log t).lh = [] from fun _ => rfl]
    exact ⟨Nat.zero_le _, Nat.zero_le _⟩
  have hreach' : Relation.ReflTransGen (Step LOGSIZE MAXOPBLOCKS size) s0 s := hreach
  clear hreach hinit
  have hinv : CountInv LOGSIZE size s := by
    induction hreach' with
    | refl => exact h0
    | tail _ hbc ih => exact step_preserves_CountInv _ _ _ _ _ hbc ih
  exact ⟨Nat.zero_le _, hinv.1, hinv.2⟩

theorem recoverDisk_home (d : Disk) (b : Nat) :
    (recoverDisk d).home b
      = (installFrom true 0 (read_head_d d) d (fun _ => 0) (fun _ => 0)).1.home b := rfl

/-- C1: crash atomicity.  Run a commit of the transaction `lh` (contents
taken from cache `c`) on a disk `d` whose header was cleared by the
previous commit or recovery, and crash after exactly `k` of its synchronous
disk writes.  If the crash happens strictly before the write-header phase
completes (`k ≤ n`: the header write is write number `n + 1`), every home
block is unchanged, both immediately and after recovery runs.  If the crash
happens at or after write-header completes (`k ≥ n + 1`, including
mid-install and after the erase), recovery leaves every logged home block
holding the fully installed transaction contents, and every other home
block untouched. -/
theorem crash_atomicity (c : Nat → Block) (lh : List Nat) (d : Disk) (k : Nat)
    (hpre : d.header.n = 0) :
    (k ≤ lh.length →
      (∀ b, (commitCrashDisk c lh d k).home b = d.home b) ∧
      (∀ b, (recoverDisk (commitCrashDisk c lh d k)).home b = d.home b)) ∧
    (lh.length + 1 ≤ k →
      (∀ b ∈ lh, (recoverDisk (commitCrashDisk c lh d k)).home b = c b) ∧
      (∀ b, b ∉ lh → (recoverDisk (commitCrashDisk c lh d k)).home b = d.home b)) := by
  constructor
  · intro hk
    have hcrash : commitCrashDisk c lh d k = writeLogFrom c 0 (lh.take k) d := by
      simp only [commitCrashDisk]
      rw [if_pos hk]
    constructor
    · intro b
      rw [hcrash, writeLogFrom_home]
    · intro b
      rw [hcrash, recoverDisk_home]
      have hrh : read_head_d (writeLogFrom c 0 (lh.take k) d) = [] := by
        unfold read_head_d
        rw [writeLogFrom_header, hpre]
        rfl
      rw [hrh]
      show (writeLogFrom c 0 (lh.take k) d).home b = d.home b
      rw [writeLogFrom_home]
  · intro hk
    have hkn : ¬ k ≤ lh.length := by omega
    have hlogd2 : ∀ (j : Nat) (hj : j < lh.length),
        (write_head_d lh (writeLogFrom c 0 lh d)).log (0 + j) = c (lh.get ⟨j, hj⟩) := by
      intro j hj
      rw [write_head_d_log]
      exact writeLogFrom_log_get c lh 0 d j hj
    by_cases hk2 : k ≤ 2 * lh.length + 1
    · have hcrash : commitCrashDisk c lh d k
          = (installFrom true 0 (lh.take (k - (lh.length + 1)))
              (write_head_d lh (writeLogFrom c 0 lh d)) (fun _ => 0) (fun _ => 0)).1 := by
        simp only [commitCrashDisk]
        rw [if_neg hkn, if_pos hk2]
      have hrh : read_head_d (commitCrashDisk c lh d k) = lh := by
        have hh : read_head_d (commitCrashDisk c lh d k)
            = read_head_d (write_head_d lh (writeLogFrom c 0 lh d)) := by
          unfold read_head_d
          rw [hcrash, installFrom_header]
        rw [hh, read_head_write_head]
      have hlogcrash : ∀ (j : Nat) (hj : j < lh.length),
          (commitCrashDisk c lh d k).log (0 + j) = c (lh.get ⟨j, hj⟩) := by
        intro j hj
        rw [hcrash, installFrom_log]
        exact hlogd2 j hj
      constructor
      · intro b hb
        rw [recoverDisk_home, hrh]
        exact installFrom_home_of_mem true c lh 0 _ _ _ hlogcrash b hb
      · intro b hb
        rw [recoverDisk_home, hrh,
          installFrom_home_of_not_mem true lh 0 _ _ _ b hb, hcrash,
          installFrom_home_of_not_mem true _ 0 _ _ _ b
            (fun hmem => hb (List.take_subset _ _ hmem)),
          write_head_d_home, writeLogFrom_home]
    · have hcrash : commitCrashDisk c lh d k
          = write_head_d [] (installFrom true 0 lh
              (write_head_d lh (writeLogFrom c 0 lh d)) (fun _ => 0) (fun _ => 0)).1 := by
        simp only [commitCrashDisk]
        rw [if_neg hkn, if_neg hk2]
      have hrh : read_head_d (commitCrashDisk c lh d k) = [] := by
        rw [hcrash]
        rfl
      have hhome : ∀ b, (recoverDisk (commitCrashDisk c lh d k)).home b
          = (commitCrashDisk c lh d k).home b := by
        intro b
        rw [recoverDisk_home, hrh]
        rfl
      constructor
      · intro b hb
        rw [hhome, hcrash, write_head_d_home]
        exact installFrom_home_of_mem true c lh 0 _ _ _ hlogd2 b hb
      · intro b hb
        rw [hhome, hcrash, write_head_d_home,
          installFrom_home_of_not_mem true lh 0 _ _ _ b hb,
          write_head_d_home, writeLogFrom_home]

/-! ## Concrete witnesses -/

/-- Witness for `crash_atomicity`: committing blocks 5 and 9 with cache
contents 7 and crashing right after the header write (`k = 3 = n + 1`),
recovery leaves home block 5 holding 7. -/
theorem crash_atomicity_w :
    (recoverDisk (commitCrashDisk (fun _ => 7) [5, 9]
      { header := { n := 0, block := [0, 0] }, log := fun _ => 0, home := fun _ => 0 }
      3)).home 5 = 7 :=
  ((crash_atomicity (fun _ => 7) [5, 9]
      { header := { n := 0, block := [0, 0] }, log := fun _ => 0, home := fun _ => 0 }
      3 rfl).2 (by decide)).1 5 (by simp)

/-- Witness for `commit_phases`: committing blocks 5 and 9 installs the
cache contents of block 5 (here `5 + 1 = 6`) to its home location. -/
theorem commit_phases_w :
    (commit { disk := { header := { n := 0, block := [0, 0] },
                        log := fun _ => 0, home := fun _ => 0 },
              cache := fun b => b + 1, pins := fun _ => 1,
              lh := [5, 9], outstanding := 0,
              committing := false }).disk.home 5 = 6 :=
  ((commit_phases { disk := { header := { n := 0, block := [0, 0] },
                              log := fun _ => 0, home := fun _ => 0 },
                    cache := fun b => b + 1, pins := fun _ => 1,
                    lh := [5, 9], outstanding := 0,
                    committing := false }).2 (by simp)).2.2.2.2.2.2.1 5 (by simp)

/-- Witness for `log_write_absorption`: three `log_write`s of block 5 in a
fresh admitted transaction produce the same state as one: one header entry
and one pin. -/
theorem log_write_absorption_w :
    logWriteN 30 10
      { disk := { header := { n := 0, block := [0, 0] },
                  log := fun _ => 0, home := fun _ => 0 },
        cache := fun _ => 0, pins := fun _ => 0,
        lh := [], outstanding := 1, committing := false } 5 3
      = some { disk := { header := { n := 0, block := [0, 0] },
                         log := fun _ => 0, home := fun _ => 0 },
               cache := fun _ => 0,
               pins := Function.update (fun _ => 0) 5 ((fun _ => (0 : Nat)) 5 + 1),
               lh := [] ++ [5], outstanding := 1, committing := false } :=
  (log_write_absorption 30 10
      { disk := { header := { n := 0, block := [0, 0] },
                  log := fun _ => 0, home := fun _ => 0 },
        cache := fun _ => 0, pins := fun _ => 0,
        lh := [], outstanding := 1, committing := false } 5
      (by simp) (by decide) (by decide) (by decide) 3 (by decide)).1

/-- Witness for `capacity_invariant`: the state right after `initlog`
satisfies the capacity bounds. -/
theorem capacity_invariant_w :
    0 ≤ (recover_from_log
        { disk := { header := { n := 0, block := [0, 0] },
                    log := fun _ => 0, home := fun _ => 0 },
          cache := fun _ => 0, pins := fun _ => 0,
          lh := [], outstanding := 0, committing := false }).lh.length ∧
    (recover_from_log
        { disk := { header := { n := 0, block := [0, 0] },
                    log := fun _ => 0, home := fun _ => 0 },
          cache := fun _ => 0, pins := fun _ => 0,
          lh := [], outstanding := 0, committing := false }).lh.length ≤ 30 ∧
    (recover_from_log
        { disk := { header := { n := 0, block := [0, 0] },
                    log := fun _ => 0, home := fun _ => 0 },
          cache := fun _ => 0, pins := fun _ => 0,
          lh := [], outstanding := 0, committing := false }).lh.length ≤ 10 - 1 :=
  capacity_invariant 30 3 10 1024
    { header := { n := 0, block := [0, 0] }, log := fun _ => 0, home := fun _ => 0 }
    (fun _ => 0) (fun _ => 0) _ _ rfl Relation.ReflTransGen.refl

/-- Witness for `begin_op_admission`: a quiescent empty log admits the
first operation. -/
theorem begin_op_admission_w :
    begin_op 30 10
      { disk := { header := { n := 0, block := [0, 0] },
                  log := fun _ => 0, home := fun _ => 0 },
        cache := fun _ => 0, pins := fun _ => 0,
        lh := [], outstanding := 0, committing := false }
      = some { disk := { header := { n := 0, block := [0, 0] },
                         log := fun _ => 0, home := fun _ => 0 },
               cache := fun _ => 0, pins := fun _ => 0,
               lh := [], outstanding := 0 + 1, committing := false } :=
  (begin_op_admission 30 10
      { disk := { header := { n := 0, block := [0, 0] },
                  log := fun _ => 0, home := fun _ => 0 },
        cache := fun _ => 0, pins := fun _ => 0,
        lh := [], outstanding := 0, committing := false }).1.mpr ⟨rfl, by decide⟩

/-- Witness for `end_op_protocol`: an `end_op` with two outstanding
operations and no commit in progress does not panic. -/
theorem end_op_protocol_w :
    ∃ s' ran, end_op
      { disk := { header := { n := 0, block := [0, 0] },
                  log := fun _ => 0, home := fun _ => 0 },
        cache := fun _ => 0, pins := fun _ => 0,
        lh := [5], outstanding := 2, committing := false } = some (s', ran) :=
  (end_op_protocol
      { disk := { header := { n := 0, block := [0, 0] },
                  log := fun _ => 0, home := fun _ => 0 },
        cache := fun _ => 0, pins := fun _ => 0,
        lh := [5], outstanding := 2, committing := false }).2.2 rfl

/-- Witness for `log_write_guard`: a `log_write` of block 5 into a fresh
admitted transaction succeeds and records the block. -/
theorem log_write_guard_w :
    ∃ s1, log_write 30 10
      { disk := { header := { n := 0, block := [0, 0] },
                  log := fun _ => 0, home := fun _ => 0 },
        cache := fun _ => 0, pins := fun _ => 0,
        lh := [], outstanding := 1, committing := false } 5 = some s1 ∧ 5 ∈ s1.lh :=
  (log_write_guard 30 10
      { disk := { header := { n := 0, block := [0, 0] },
                  log := fun _ => 0, home := fun _ => 0 },
        cache := fun _ => 0, pins := fun _ => 0,
        lh := [], outstanding := 1, committing := false } 5).2
    (by decide) (by decide) (by decide)

/-- Witness for `recovery_idempotent`: recovering an on-disk header with
`count = 2` and entries `[3, 7]` installs log slot 1 (contents `41`) to
home block 7. -/
theorem recovery_idempotent_w :
    (recover_from_log
      { disk := { header := { n := 2, block := [3, 7] },
                  log := fun i => i + 40, home := fun _ => 0 },
        cache := fun _ => 0, pins := fun _ => 0,
        lh := [], outstanding := 0, committing := false }).disk.home 7 = 41 :=
  (recovery_idempotent
      { disk := { header := { n := 2, block := [3, 7] },
                  log := fun i => i + 40, home := fun _ => 0 },
        cache := fun _ => 0, pins := fun _ => 0,
        lh := [], outstanding := 0, committing := false }).2.2.1 (by decide) 1 (by decide)

/-- Witness for `initlog_fit_amended`: a 124-byte header record fits
strictly inside a 1024-byte block, so `initlog` succeeds and recovers. -/
theorem initlog_fit_amended_w :
    initlog 30 1024
      { header := { n := 0, block := [0, 0] }, log := fun _ => 0, home := fun _ => 0 }
      (fun _ => 0) (fun _ => 0)
      = some (recover_from_log
        { disk := { header := { n := 0, block := [0, 0] },
                    log := fun _ => 0, home := fun _ => 0 },
          cache := fun _ => 0, pins := fun _ => 0,
          lh := [], outstanding := 0, committing := false }) :=
  (initlog_fit_amended 30 1024
      { header := { n := 0, block := [0, 0] }, log := fun _ => 0, home := fun _ => 0 }
      (fun _ => 0) (fun _ => 0)).2 (by decide)

/-- Witness for `erase_header_frame`: after committing blocks 5 and 9 the
on-disk header still shows the entries `[5, 9]` (with count 0). -/
theorem erase_header_frame_w :
    (commit { disk := { header := { n := 0, block := [0, 0] },
                        log := fun _ => 0, home := fun _ => 0 },
              cache := fun b => b + 1, pins := fun _ => 1,
              lh := [5, 9], outstanding := 0,
              committing := false }).disk.header.block = [5, 9] ++ [0, 0].drop 2 :=
  ((erase_header_frame
      { header := { n := 0, block := [0, 0] }, log := fun _ => 0, home := fun _ => 0 }
      { disk := { header := { n := 0, block := [0, 0] },
                  log := fun _ => 0, home := fun _ => 0 },
        cache := fun b => b + 1, pins := fun _ => 1,
        lh := [5, 9], outstanding := 0,
        committing := false }).2.2.2.2.1 (by simp)).2

end XV6Log
